import Mathlib

/-!
# Verification of the mfc-control calibration and safety-coordination core

Shallow embedding of `src/mfc_control/core/{calibration,mfc,controller,safety}.py`
over exact rational arithmetic.  Device-native and real flow values are `ℚ`;
the injected transport is a pure read function plus a write-failure flag and a
write log; Python exceptions are `Except MErr`; `logger` calls and valve /
handle effects are an explicit event trace.
-/

namespace MfcControl

/-! ## Calibration (`core/calibration.py`)

`np.interp(x, xp, fp)` over ascending `xp`: piecewise-linear between the
knots, and *clamped* to `fp[0]` / `fp[-1]` for `x` below / above the stored
range (numpy's documented `left` / `right` defaults).  The list carries the
`(mfc_value, real_value)` pairs. -/

def interp (x : ℚ) : List (ℚ × ℚ) → ℚ
  | [] => 0
  | (a, b) :: rest =>
    match rest with
    | [] => b
    | (a2, b2) :: _ =>
      if x ≤ a then b
      else if x ≤ a2 then b + (b2 - b) * (x - a) / (a2 - a)
      else interp x rest

/-- Comparison used to model `np.argsort(self.mfc_values)` applied to the pairs. -/
def leFst (p q : ℚ × ℚ) : Prop := p.1 ≤ q.1

/-- Comparison used to model `np.argsort(self.real_values)` in `real_to_mfc`. -/
def leSnd (p q : ℚ × ℚ) : Prop := p.2 ≤ q.2

instance : DecidableRel leFst := fun p q => inferInstanceAs (Decidable (p.1 ≤ q.1))

instance : DecidableRel leSnd := fun p q => inferInstanceAs (Decidable (p.2 ≤ q.2))

instance : IsTotal (ℚ × ℚ) leFst := ⟨fun p q => le_total p.1 q.1⟩

instance : IsTrans (ℚ × ℚ) leFst := ⟨fun _ _ _ h h' => le_trans h h'⟩

instance : IsTotal (ℚ × ℚ) leSnd := ⟨fun p q => le_total p.2 q.2⟩

instance : IsTrans (ℚ × ℚ) leSnd := ⟨fun _ _ _ h h' => le_trans h h'⟩

/-- `Calibration` after `__init__`: the `(mfc, real)` pairs, stored sorted
ascending by mfc value, plus the gas identifier. -/
structure Calibration where
  pairs : List (ℚ × ℚ)
  gas_type : String
deriving DecidableEq

/-- `Calibration.__init__`: rejects mismatched lengths and fewer than two
points (`ValueError`), otherwise sorts the pairs by mfc value. -/
def Calibration.init (mfc_values real_values : List ℚ) (gas_type : String) :
    Option Calibration :=
  if mfc_values.length ≠ real_values.length then none
  else if mfc_values.length < 2 then none
  else some ⟨(mfc_values.zip real_values).insertionSort leFst, gas_type⟩

/-- `Calibration.mfc_to_real`: `np.interp(mfc_value, self.mfc_values, self.real_values)`. -/
def Calibration.mfc_to_real (c : Calibration) (mfc_value : ℚ) : ℚ :=
  interp mfc_value c.pairs

/-- `Calibration.real_to_mfc`: re-sort the pairs by real value, then
`np.interp(real_value, sorted_real, sorted_mfc)`. -/
def Calibration.real_to_mfc (c : Calibration) (real_value : ℚ) : ℚ :=
  interp real_value ((c.pairs.insertionSort leSnd).map Prod.swap)

/-- `np.min` over a nonempty array (0 on the empty array, unused there). -/
def listMin : List ℚ → ℚ
  | [] => 0
  | x :: xs => xs.foldl min x

/-- `np.max` over a nonempty array (0 on the empty array, unused there). -/
def listMax : List ℚ → ℚ
  | [] => 0
  | x :: xs => xs.foldl max x

def Calibration.min_mfc_value (c : Calibration) : ℚ := listMin (c.pairs.map Prod.fst)

def Calibration.max_mfc_value (c : Calibration) : ℚ := listMax (c.pairs.map Prod.fst)

def Calibration.min_real_flow (c : Calibration) : ℚ := listMin (c.pairs.map Prod.snd)

def Calibration.max_real_flow (c : Calibration) : ℚ := listMax (c.pairs.map Prod.snd)

def Calibration.is_real_in_range (c : Calibration) (real_value : ℚ) : Bool :=
  c.min_real_flow ≤ real_value ∧ real_value ≤ c.max_real_flow

def Calibration.is_mfc_in_range (c : Calibration) (mfc_value : ℚ) : Bool :=
  c.min_mfc_value ≤ mfc_value ∧ mfc_value ≤ c.max_mfc_value

/-! ## Flow devices (`core/mfc.py`)

The injected transport (`InstrumentProtocol`) is modelled as a pure
`readParameter` outcome map, a flag saying whether `writeParameter` raises,
and a log of the writes that reached the device.  A raised Python exception
is `Except.error`; because the embedding threads state explicitly, an
operation that returns `.error` has issued no write and left every field of
the caller's device unchanged. -/

/-- Bronkhorst DDE parameter numbers (`MFCParameter`). -/
def WINK : Nat := 1

def MEASURE : Nat := 205

def SETPOINT : Nat := 206

def CAPACITY : Nat := 21

def DEVICE_TAG : Nat := 115

/-- `WinkMode.SLOW` / `WinkMode.LONG`. -/
def WinkModeSLOW : String := "2"

def WinkModeLONG : String := "9"

/-- A value written to a device parameter (`writeParameter` takes floats for
setpoints and strings for wink modes). -/
inductive PVal
  | num (q : ℚ)
  | str (s : String)
deriving DecidableEq

/-- Outcome of one `instrument.readParameter(p)` call: the transport raised,
returned `None`, or returned a numeric / string value. -/
inductive ReadOutcome
  | fail
  | null
  | num (q : ℚ)
  | strVal (s : String)
deriving DecidableEq

/-- The transport handle attached at connect time. -/
structure Instrument where
  readParam : Nat → ReadOutcome
  writeFails : Bool
  writeLog : List (Nat × PVal)

/-- The error taxonomy of §7 of the design: Python exception classes raised
by the core (`ConnectionError`, `ValueError` for negative flows, `ValueError`
for missing data, transport exceptions, `KeyError` lookups). -/
inductive MErr
  | notConnected (name : String)
  | invalidArg
  | noData (name : String)
  | transportFail
  | notFound (name : String)
  | duplicate (name : String)
deriving DecidableEq

/-- `MFC` (the controllable variant of `FlowDeviceBase`). -/
structure MFC where
  name : String
  com_port : String
  node_address : Nat
  gas_type : String
  instrument : Option Instrument
  _connected : Bool
  calibration : Option Calibration
  _last_setpoint_mfc : ℚ

/-- The dataclass constructor: fixed identity, no transport handle,
disconnected, zero last setpoint. -/
def MFC.mk0 (name com_port : String) (node_address : Nat) (gas_type : String)
    (calibration : Option Calibration) : MFC :=
  { name, com_port, node_address, gas_type,
    instrument := none, _connected := false, calibration,
    _last_setpoint_mfc := 0 }

def MFC.is_connected (m : MFC) : Bool :=
  m._connected && m.instrument.isSome

/-- `connect`: attaches a handle and sets the flag. -/
def MFC.connect (m : MFC) (i : Instrument) : MFC :=
  { m with instrument := some i, _connected := true }

/-- `disconnect`: clears both the handle and the flag. -/
def MFC.disconnect (m : MFC) : MFC :=
  { m with instrument := none, _connected := false }

/-- `_require_connection`: raises `ConnectionError` unless connected. -/
def MFC._require_connection (m : MFC) : Except MErr Instrument :=
  match m.instrument with
  | some i => if m._connected then .ok i else .error (.notConnected m.name)
  | none => .error (.notConnected m.name)

/-- Shared body of the numeric reads: `readParameter` then
`if value is None: raise ValueError(no data)` then `float(value)`. -/
def readNum (i : Instrument) (p : Nat) (name : String) : Except MErr ℚ :=
  match i.readParam p with
  | .fail => .error .transportFail
  | .null => .error (.noData name)
  | .num q => .ok q
  | .strVal _ => .error .transportFail

def MFC.read_flow_mfc (m : MFC) : Except MErr ℚ := do
  let i ← m._require_connection
  readNum i MEASURE m.name

def MFC.read_flow_real (m : MFC) : Except MErr ℚ := do
  let v ← m.read_flow_mfc
  match m.calibration with
  | some c => .ok (c.mfc_to_real v)
  | none => .ok v

def MFC.read_setpoint_mfc (m : MFC) : Except MErr ℚ := do
  let i ← m._require_connection
  readNum i SETPOINT m.name

def MFC.read_setpoint_real (m : MFC) : Except MErr ℚ := do
  let v ← m.read_setpoint_mfc
  match m.calibration with
  | some c => .ok (c.mfc_to_real v)
  | none => .ok v

def MFC.read_capacity (m : MFC) : Except MErr ℚ := do
  let i ← m._require_connection
  readNum i CAPACITY m.name

/-- `read_device_tag`: `str(tag) if tag else ""` — a `None` (and any falsy
value: `0`, `""`) yields the empty string rather than an error. -/
def MFC.read_device_tag (m : MFC) : Except MErr String := do
  let i ← m._require_connection
  match i.readParam DEVICE_TAG with
  | .fail => .error .transportFail
  | .null => .ok ""
  | .num q => .ok (if q = 0 then "" else toString q)
  | .strVal s => .ok s

def MFC.wink (m : MFC) (mode : String) : Except MErr MFC := do
  let i ← m._require_connection
  if i.writeFails then .error .transportFail
  else .ok { m with
    instrument := some { i with writeLog := (WINK, .str mode) :: i.writeLog } }

/-- `set_flow_mfc`: rejects negatives before touching the transport, writes
the setpoint parameter, records the last commanded setpoint. -/
def MFC.set_flow_mfc (m : MFC) (mfc_value : ℚ) : Except MErr MFC :=
  if mfc_value < 0 then .error .invalidArg
  else do
    let i ← m._require_connection
    if i.writeFails then .error .transportFail
    else .ok { m with
      instrument := some { i with writeLog := (SETPOINT, .num mfc_value) :: i.writeLog },
      _last_setpoint_mfc := mfc_value }

/-- `set_flow_real`: rejects negatives, converts through the calibration
(logging an extrapolation warning out of range), delegates to `set_flow_mfc`. -/
def MFC.set_flow_real (m : MFC) (real_value : ℚ) : Except MErr MFC :=
  if real_value < 0 then .error .invalidArg
  else
    let mfc_value :=
      match m.calibration with
      | some c => c.real_to_mfc real_value
      | none => real_value
    m.set_flow_mfc mfc_value

def MFC.close_valve (m : MFC) : Except MErr MFC :=
  m.set_flow_mfc 0

def MFC.check_deviation (m : MFC) (threshold : ℚ) : Except MErr (Bool × ℚ) := do
  let setpoint ← m.read_setpoint_mfc
  let measured ← m.read_flow_mfc
  let deviation := |setpoint - measured|
  .ok (deviation ≤ threshold, deviation)

/-- `CoriFlowMeter` (the read-only variant; no calibration, no setters). -/
structure CoriFlowMeter where
  name : String
  com_port : String
  node_address : Nat
  gas_type : String
  instrument : Option Instrument
  _connected : Bool

def CoriFlowMeter.mk0 (name com_port : String) (node_address : Nat)
    (gas_type : String) : CoriFlowMeter :=
  { name, com_port, node_address, gas_type,
    instrument := none, _connected := false }

def CoriFlowMeter.is_connected (d : CoriFlowMeter) : Bool :=
  d._connected && d.instrument.isSome

def CoriFlowMeter.connect (d : CoriFlowMeter) (i : Instrument) : CoriFlowMeter :=
  { d with instrument := some i, _connected := true }

def CoriFlowMeter.disconnect (d : CoriFlowMeter) : CoriFlowMeter :=
  { d with instrument := none, _connected := false }

def CoriFlowMeter._require_connection (d : CoriFlowMeter) : Except MErr Instrument :=
  match d.instrument with
  | some i => if d._connected then .ok i else .error (.notConnected d.name)
  | none => .error (.notConnected d.name)

def CoriFlowMeter.read_flow_mfc (d : CoriFlowMeter) : Except MErr ℚ := do
  let i ← d._require_connection
  readNum i MEASURE d.name

/-- For a Coriolis meter `read_flow_real` is just `read_flow_mfc`. -/
def CoriFlowMeter.read_flow_real (d : CoriFlowMeter) : Except MErr ℚ :=
  d.read_flow_mfc

def CoriFlowMeter.read_capacity (d : CoriFlowMeter) : Except MErr ℚ := do
  let i ← d._require_connection
  readNum i CAPACITY d.name

def CoriFlowMeter.read_device_tag (d : CoriFlowMeter) : Except MErr String := do
  let i ← d._require_connection
  match i.readParam DEVICE_TAG with
  | .fail => .error .transportFail
  | .null => .ok ""
  | .num q => .ok (if q = 0 then "" else toString q)
  | .strVal s => .ok s

def CoriFlowMeter.wink (d : CoriFlowMeter) (mode : String) : Except MErr CoriFlowMeter := do
  let i ← d._require_connection
  if i.writeFails then .error .transportFail
  else .ok { d with
    instrument := some { i with writeLog := (WINK, .str mode) :: i.writeLog } }

/-! ## Controller (`core/controller.py`)

The two name-keyed registries are insertion-ordered association lists (Python
dicts preserve insertion order).  Controller-level operations additionally
produce an event trace: `logger` calls with their severity, successful
zero-setpoint commands (`Ev.closed`), and transport-handle releases
(`Ev.released`). -/

/-- Python `logging` severities used by the core. -/
inductive Level
  | debug
  | info
  | warning
  | error
  | critical
deriving DecidableEq

/-- One observable effect of a controller-level operation. -/
inductive Ev
  | log (lv : Level) (msg : String)
  | closed (name : String)
  | released (name : String)
deriving DecidableEq

structure MFCController where
  mfcs : List (String × MFC)
  cori_flows : List (String × CoriFlowMeter)

/-- `name in dict` / `dict[name]` on an insertion-ordered registry. -/
def lookupDev {α : Type} (l : List (String × α)) (name : String) : Option α :=
  (l.find? (fun p => p.1 == name)).map Prod.snd

/-- In-place mutation of the registry entry `name` (Python objects are
aliased: mutating the device mutates the dict's value). -/
def setDev {α : Type} (l : List (String × α)) (name : String) (d : α) :
    List (String × α) :=
  l.map fun p => if p.1 == name then (p.1, d) else p

/-- `get_mfc`: `KeyError` listing the registered names when absent. -/
def MFCController.get_mfc (c : MFCController) (name : String) : Except MErr MFC :=
  match lookupDev c.mfcs name with
  | some m => .ok m
  | none => .error (.notFound name)

/-- `remove_mfc`: `KeyError` if absent; when the device is connected it is
closed (`close_valve`, which may raise and then propagates, leaving the
registry untouched) and disconnected before the entry is deleted. -/
def MFCController.remove_mfc (c : MFCController) (name : String) :
    Except MErr MFCController :=
  match lookupDev c.mfcs name with
  | none => .error (.notFound name)
  | some m =>
    if m.is_connected then
      match m.close_valve with
      | .error e => .error e
      | .ok _ => .ok { c with mfcs := c.mfcs.filter (fun p => !(p.1 == name)) }
    else .ok { c with mfcs := c.mfcs.filter (fun p => !(p.1 == name)) }

/-- The loop body of `close_all_valves`: every connected MFC gets
`close_valve()`, a raised exception is logged (`logger.error`) and the
iteration continues. -/
def closePass : List (String × MFC) → List (String × MFC) × List Ev
  | [] => ([], [])
  | (n, m) :: rest =>
    if m.is_connected then
      match m.close_valve with
      | .ok m' => ((n, m') :: (closePass rest).1, Ev.closed n :: (closePass rest).2)
      | .error _ =>
        ((n, m) :: (closePass rest).1,
          Ev.log .error ("Failed to close " ++ n) :: (closePass rest).2)
    else ((n, m) :: (closePass rest).1, (closePass rest).2)

def MFCController.close_all_valves (c : MFCController) : MFCController × List Ev :=
  ({ c with mfcs := (closePass c.mfcs).1 },
    (closePass c.mfcs).2 ++ [Ev.log .info "All valves closed"])

/-- The MFC half of the `disconnect_all` loop: every connected device's
handle is released. -/
def releasePassM : List (String × MFC) → List (String × MFC) × List Ev
  | [] => ([], [])
  | (n, m) :: rest =>
    if m.is_connected then
      ((n, m.disconnect) :: (releasePassM rest).1, Ev.released n :: (releasePassM rest).2)
    else ((n, m) :: (releasePassM rest).1, (releasePassM rest).2)

/-- The CoriFlow half of the `disconnect_all` loop. -/
def releasePassC : List (String × CoriFlowMeter) → List (String × CoriFlowMeter) × List Ev
  | [] => ([], [])
  | (n, d) :: rest =>
    if d.is_connected then
      ((n, d.disconnect) :: (releasePassC rest).1, Ev.released n :: (releasePassC rest).2)
    else ((n, d) :: (releasePassC rest).1, (releasePassC rest).2)

/-- `disconnect_all`: always `close_all_valves()` first, then release every
connected handle (MFCs, then CoriFlows). -/
def MFCController.disconnect_all (c : MFCController) : MFCController × List Ev :=
  (⟨(releasePassM (c.close_all_valves).1.mfcs).1,
    (releasePassC (c.close_all_valves).1.cori_flows).1⟩,
   (c.close_all_valves).2 ++ (releasePassM (c.close_all_valves).1.mfcs).2
     ++ (releasePassC (c.close_all_valves).1.cori_flows).2)

/-- The `wink_all` loop over the MFCs: no per-device exception handling, so
a failing `wink()` propagates and aborts the remaining iteration. -/
def winkPassM : List (String × MFC) → Except MErr (List (String × MFC))
  | [] => .ok []
  | (n, m) :: rest =>
    if m.is_connected then do
      let m' ← m.wink WinkModeLONG
      let rest' ← winkPassM rest
      .ok ((n, m') :: rest')
    else do
      let rest' ← winkPassM rest
      .ok ((n, m) :: rest')

def winkPassC : List (String × CoriFlowMeter) → Except MErr (List (String × CoriFlowMeter))
  | [] => .ok []
  | (n, d) :: rest =>
    if d.is_connected then do
      let d' ← d.wink WinkModeLONG
      let rest' ← winkPassC rest
      .ok ((n, d') :: rest')
    else do
      let rest' ← winkPassC rest
      .ok ((n, d) :: rest')

def MFCController.wink_all (c : MFCController) : Except MErr MFCController := do
  let ms ← winkPassM c.mfcs
  let cs ← winkPassC c.cori_flows
  .ok ⟨ms, cs⟩

/-- The `read_all_flows` loop: a failed read is logged and recorded as
`float("nan")` (modelled `none`), and the iteration continues. -/
def readFlowsPass : List (String × MFC) → List (String × Option ℚ) × List Ev
  | [] => ([], [])
  | (n, m) :: rest =>
    if m.is_connected then
      match m.read_flow_real with
      | .ok v => ((n, some v) :: (readFlowsPass rest).1, (readFlowsPass rest).2)
      | .error _ =>
        ((n, none) :: (readFlowsPass rest).1,
          Ev.log .error ("Failed to read " ++ n) :: (readFlowsPass rest).2)
    else readFlowsPass rest

def MFCController.read_all_flows (c : MFCController) :
    List (String × Option ℚ) × List Ev :=
  readFlowsPass c.mfcs

/-- The `check_all_deviations` loop: no per-device exception handling, so a
failing `check_deviation()` propagates and aborts the remaining iteration. -/
def deviationPass (threshold : ℚ) :
    List (String × MFC) → Except MErr (List (String × (Bool × ℚ)))
  | [] => .ok []
  | (n, m) :: rest =>
    if m.is_connected then do
      let r ← m.check_deviation threshold
      let rest' ← deviationPass threshold rest
      .ok ((n, r) :: rest')
    else deviationPass threshold rest

def MFCController.check_all_deviations (c : MFCController) (threshold : ℚ) :
    Except MErr (List (String × (Bool × ℚ))) :=
  deviationPass threshold c.mfcs

/-- The `connect_all` loop over the MFCs, parameterised by the external
connection-acquisition function (`ConnectionManager.get_instrument`, which
may raise): no per-device exception handling. -/
def connectPassM (acquire : String → Nat → Except MErr Instrument) :
    List (String × MFC) → Except MErr (List (String × MFC))
  | [] => .ok []
  | (n, m) :: rest =>
    if m.is_connected then do
      let rest' ← connectPassM acquire rest
      .ok ((n, m) :: rest')
    else do
      let i ← acquire m.com_port m.node_address
      let rest' ← connectPassM acquire rest
      .ok ((n, m.connect i) :: rest')

def connectPassC (acquire : String → Nat → Except MErr Instrument) :
    List (String × CoriFlowMeter) → Except MErr (List (String × CoriFlowMeter))
  | [] => .ok []
  | (n, d) :: rest =>
    if d.is_connected then do
      let rest' ← connectPassC acquire rest
      .ok ((n, d) :: rest')
    else do
      let i ← acquire d.com_port d.node_address
      let rest' ← connectPassC acquire rest
      .ok ((n, d.connect i) :: rest')

def MFCController.connect_all (c : MFCController)
    (acquire : String → Nat → Except MErr Instrument) :
    Except MErr MFCController := do
  let ms ← connectPassM acquire c.mfcs
  let cs ← connectPassC acquire c.cori_flows
  .ok ⟨ms, cs⟩

/-! ## SafetyManager (`core/safety.py`)

`purge` never raises: every exception inside it is caught.  Its result is the
updated controller, the event trace, and the total time slept (the dwell of
step 3, `time.sleep(self.purge_duration)`). -/

structure SafetyManager where
  air_mfc_name : String := "Air"
  purge_flow : ℚ := 30
  purge_duration : ℚ := 10

def SafetyManager.emergency_stop (_s : SafetyManager) (c : MFCController) :
    MFCController × List Ev :=
  let r := c.close_all_valves
  (r.1, Ev.log .critical "EMERGENCY STOP ACTIVATED" :: r.2
    ++ [Ev.log .critical "All valves closed"])

/-- `air_mfc_name or self.air_mfc_name` (`None` and the empty string are
falsy). -/
def resolveAirName (override : Option String) (s : SafetyManager) : String :=
  match override with
  | some n => if n = "" then s.air_mfc_name else n
  | none => s.air_mfc_name

/-- Step 1 of `purge`: close every connected MFC other than the purge medium,
logging and continuing past per-device failures. -/
def purgeClosePass (air_name : String) :
    List (String × MFC) → List (String × MFC) × List Ev
  | [] => ([], [])
  | (n, m) :: rest =>
    if n ≠ air_name ∧ m.is_connected then
      match m.close_valve with
      | .ok m' =>
        ((n, m') :: (purgeClosePass air_name rest).1,
          Ev.closed n :: Ev.log .info ("Closed " ++ n) :: (purgeClosePass air_name rest).2)
      | .error _ =>
        ((n, m) :: (purgeClosePass air_name rest).1,
          Ev.log .error ("Failed to close " ++ n) :: (purgeClosePass air_name rest).2)
    else ((n, m) :: (purgeClosePass air_name rest).1, (purgeClosePass air_name rest).2)

/-- Steps 2-4 of `purge` once the fuel valves are closed: look up the purge
medium (`KeyError` falls back to `close_all_valves` and returns early with no
dwell), command it to `purge_flow` in native units (a raised write likewise
falls back and returns early), dwell, close the medium (failures logged). -/
def purgeAir (s : SafetyManager) (c1 : MFCController) (air_name : String)
    (ev1 : List Ev) : MFCController × List Ev × ℚ :=
  match lookupDev c1.mfcs air_name with
  | none =>
    ((c1.close_all_valves).1,
      ev1 ++ [Ev.log .error ("Air MFC " ++ air_name ++ " not found - cannot purge")]
        ++ (c1.close_all_valves).2, 0)
  | some air_mfc =>
    if air_mfc.is_connected then
      match air_mfc.set_flow_mfc s.purge_flow with
      | .error _ =>
        ((c1.close_all_valves).1,
          ev1 ++ [Ev.log .error "Failed to start air purge"] ++ (c1.close_all_valves).2, 0)
      | .ok air' =>
        match air'.close_valve with
        | .ok air2 =>
          ({ c1 with mfcs := setDev (setDev c1.mfcs air_name air') air_name air2 },
            ev1 ++ [Ev.log .info "Air purge started", Ev.closed air_name,
              Ev.log .warning "Purge sequence complete"], s.purge_duration)
        | .error _ =>
          ({ c1 with mfcs := setDev c1.mfcs air_name air' },
            ev1 ++ [Ev.log .info "Air purge started",
              Ev.log .error "Failed to close air valve",
              Ev.log .warning "Purge sequence complete"], s.purge_duration)
    else
      -- medium present but disconnected: the guarded write is skipped, the
      -- dwell still happens, and step 4 close fails with ConnectionError
      -- (caught and logged).
      match air_mfc.close_valve with
      | .ok air2 =>
        ({ c1 with mfcs := setDev c1.mfcs air_name air2 },
          ev1 ++ [Ev.closed air_name, Ev.log .warning "Purge sequence complete"],
          s.purge_duration)
      | .error _ =>
        (c1, ev1 ++ [Ev.log .error "Failed to close air valve",
          Ev.log .warning "Purge sequence complete"], s.purge_duration)

def SafetyManager.purge (s : SafetyManager) (c : MFCController)
    (air_mfc_name : Option String) : MFCController × List Ev × ℚ :=
  purgeAir s { c with mfcs := (purgeClosePass (resolveAirName air_mfc_name s) c.mfcs).1 }
    (resolveAirName air_mfc_name s)
    (Ev.log .warning "Starting purge sequence"
      :: (purgeClosePass (resolveAirName air_mfc_name s) c.mfcs).2)

/-- `check_all_flows_zero`: a fold over the MFC registry; a read failure or
an above-threshold magnitude flips the accumulator to `False`, and the loop
always continues to the next device. -/
def SafetyManager.check_all_flows_zero (c : MFCController) (threshold : ℚ) : Bool :=
  c.mfcs.foldl
    (fun all_zero p =>
      if p.2.is_connected then
        match p.2.read_flow_mfc with
        | .ok flow => if threshold < |flow| then false else all_zero
        | .error _ => false
      else all_zero)
    true

/-! ## Concrete fixtures

Instruments and registries used to evaluate the embedded code at concrete
inputs.  `iOk` answers every read with `0` and accepts writes; `iBad` accepts
reads but raises on every write; `iDead` raises on every read. -/

def iOk : Instrument := ⟨fun _ => .num 0, false, []⟩

def iBad : Instrument := ⟨fun _ => .num 0, true, []⟩

def iDead : Instrument := ⟨fun _ => .fail, false, []⟩

/-- A connected MFC named `name` using instrument `i` (no calibration). -/
def mConn (name : String) (i : Instrument) : MFC :=
  (MFC.mk0 name "COM1" 1 "CH4" none).connect i

/-- The device state `close_valve` produces from a connected device `m`
holding instrument `i` whose writes succeed. -/
def closedM (m : MFC) (i : Instrument) : MFC :=
  { m with
    instrument := some { i with writeLog := (SETPOINT, .num 0) :: i.writeLog },
    _last_setpoint_mfc := 0 }

def cWink : MFCController := ⟨[("A", mConn "A" iBad), ("B", mConn "B" iOk)], []⟩

def cDev : MFCController := ⟨[("A", mConn "A" iDead), ("B", mConn "B" iOk)], []⟩

def cConn : MFCController := ⟨[("A", MFC.mk0 "A" "COM1" 1 "CH4" none)], []⟩

def cHealthy : MFCController := ⟨[("A", mConn "A" iOk)], []⟩

def cRm : MFCController := ⟨[("A", mConn "A" iBad)], []⟩

def cNoAir : MFCController := ⟨[("CH4", mConn "CH4" iOk)], []⟩

def s0 : SafetyManager := {}

/-- Whether a trace contains a `logger.critical` entry. -/
def containsCritical (evs : List Ev) : Bool :=
  evs.any fun e =>
    match e with
    | .log .critical _ => true
    | _ => false

end MfcControl

namespace MfcControl

/-! ## C1: behaviour of `mfc_to_real` / `real_to_mfc` outside the stored range -/

/-- C1 (code_bug evaluation): on the calibration with pairs
`[(0, 0), (1, 5)]`, `np.interp` *clamps* outside the stored range instead of
extrapolating the edge segment slope: `mfc_to_real 2 = 5` (the edge pair
value; the documented extrapolation would give `10`), `mfc_to_real (-1) = 0`
(extrapolation would give `-5`), and `real_to_mfc 10 = 1` (extrapolation
would give `2`).  No error is raised, but this contradicts both the claim
and the functions' own docstrings ("values outside calibration range are
extrapolated"). -/
theorem mfc_to_real_clamps_outside_range :
    Calibration.init [0, 1] [0, 5] "Test" = some ⟨[(0, 0), (1, 5)], "Test"⟩ ∧
    Calibration.mfc_to_real ⟨[(0, 0), (1, 5)], "Test"⟩ 2 = 5 ∧
    Calibration.mfc_to_real ⟨[(0, 0), (1, 5)], "Test"⟩ (-1) = 0 ∧
    Calibration.real_to_mfc ⟨[(0, 0), (1, 5)], "Test"⟩ 10 = 1 := by
  refine ⟨?_, ?_, ?_, ?_⟩ <;> decide

/-! ## C5: negative setpoint commands are rejected before any state change -/

/-- C5: for every MFC and every negative argument, `set_flow_mfc` and
`set_flow_real` fail with the invalid-argument error.  Both functions test
the sign before `_require_connection`, so in this state-threading embedding
the returned `.error` certifies that no setpoint write was issued and the
caller's `_last_setpoint_mfc` is untouched. -/
theorem set_flow_rejects_negative (m : MFC) (v : ℚ) (h : v < 0) :
    m.set_flow_mfc v = .error .invalidArg ∧ m.set_flow_real v = .error .invalidArg := by
  unfold MFC.set_flow_mfc MFC.set_flow_real
  rw [if_pos h, if_pos h]
  exact ⟨rfl, rfl⟩

/-- C5 witness: the rejection evaluated at a concrete device and `-1`. -/
theorem set_flow_rejects_negative_witness :
    (MFC.mk0 "A" "COM1" 1 "CH4" none).set_flow_mfc (-1) = .error .invalidArg ∧
    (MFC.mk0 "A" "COM1" 1 "CH4" none).set_flow_real (-1) = .error .invalidArg :=
  set_flow_rejects_negative _ _ (by norm_num)

/-! ## C9: a never-connected device rejects every transport-touching operation -/

/-- C9: a FlowDevice constructed but never connected (`instrument = none`,
`_connected = false`) fails every read/write/wink operation with the
not-connected error; since `.error` is returned by `_require_connection`
before any transport call, no transport I/O is performed. -/
theorem fresh_device_not_connected (name com_port : String) (node : Nat)
    (gas : String) (cal : Option Calibration) (mode : String) (v : ℚ) (hv : 0 ≤ v) :
    (MFC.mk0 name com_port node gas cal).read_flow_mfc = .error (.notConnected name) ∧
    (MFC.mk0 name com_port node gas cal).read_flow_real = .error (.notConnected name) ∧
    (MFC.mk0 name com_port node gas cal).read_setpoint_mfc = .error (.notConnected name) ∧
    (MFC.mk0 name com_port node gas cal).read_capacity = .error (.notConnected name) ∧
    (MFC.mk0 name com_port node gas cal).read_device_tag = .error (.notConnected name) ∧
    (MFC.mk0 name com_port node gas cal).wink mode = .error (.notConnected name) ∧
    (MFC.mk0 name com_port node gas cal).set_flow_mfc v = .error (.notConnected name) ∧
    (MFC.mk0 name com_port node gas cal).close_valve = .error (.notConnected name) ∧
    (CoriFlowMeter.mk0 name com_port node gas).read_flow_mfc = .error (.notConnected name) ∧
    (CoriFlowMeter.mk0 name com_port node gas).read_flow_real = .error (.notConnected name) ∧
    (CoriFlowMeter.mk0 name com_port node gas).read_capacity = .error (.notConnected name) ∧
    (CoriFlowMeter.mk0 name com_port node gas).read_device_tag = .error (.notConnected name) ∧
    (CoriFlowMeter.mk0 name com_port node gas).wink mode = .error (.notConnected name) := by
  refine ⟨rfl, rfl, rfl, rfl, rfl, rfl, ?_, rfl, rfl, rfl, rfl, rfl, rfl⟩
  unfold MFC.set_flow_mfc
  rw [if_neg (not_lt.mpr hv)]
  rfl

/-- C9 witness: the theorem evaluated at a concrete fresh device, wink mode
`"9"` and setpoint `1`. -/
theorem fresh_device_not_connected_witness :
    (MFC.mk0 "X" "COM1" 3 "H2" none).read_flow_mfc = .error (.notConnected "X") ∧
    (MFC.mk0 "X" "COM1" 3 "H2" none).set_flow_mfc 1 = .error (.notConnected "X") ∧
    (CoriFlowMeter.mk0 "X" "COM1" 3 "H2").wink "9" = .error (.notConnected "X") := by
  have h := fresh_device_not_connected "X" "COM1" 3 "H2" none "9" 1 (by norm_num)
  exact ⟨h.1, h.2.2.2.2.2.2.1, h.2.2.2.2.2.2.2.2.2.2.2.2⟩

/-! ## C10: `check_all_flows_zero` is exactly an all-reads-small conjunction -/

/-- The loop body of `check_all_flows_zero`. -/
def zeroStep (threshold : ℚ) (all_zero : Bool) (p : String × MFC) : Bool :=
  if p.2.is_connected then
    match p.2.read_flow_mfc with
    | .ok flow => if threshold < |flow| then false else all_zero
    | .error _ => false
  else all_zero

lemma check_all_flows_zero_eq_foldl (c : MFCController) (t : ℚ) :
    SafetyManager.check_all_flows_zero c t = c.mfcs.foldl (zeroStep t) true := rfl

lemma foldl_zeroStep_false (t : ℚ) : ∀ l : List (String × MFC),
    l.foldl (zeroStep t) false = false := by
  intro l
  induction l with
  | nil => rfl
  | cons p l ih =>
    rw [List.foldl_cons]
    have : zeroStep t false p = false := by
      unfold zeroStep
      split
      · split
        · split <;> rfl
        · rfl
      · rfl
    rw [this, ih]

lemma foldl_zeroStep_true (t : ℚ) : ∀ l : List (String × MFC),
    l.foldl (zeroStep t) true = true ↔
      ∀ p ∈ l, p.2.is_connected = true →
        ∃ q, p.2.read_flow_mfc = .ok q ∧ |q| ≤ t := by
  intro l
  induction l with
  | nil => simp
  | cons p l ih =>
    rw [List.foldl_cons]
    by_cases hc : p.2.is_connected = true
    · rcases hr : p.2.read_flow_mfc with q | q
      · -- read raised: the accumulator is False and stays False
        have hstep : zeroStep t true p = false := by simp [zeroStep, hc, hr]
        rw [hstep, foldl_zeroStep_false]
        simp only [Bool.false_eq_true, false_iff]
        intro h
        obtain ⟨q', hq', _⟩ := h p (List.mem_cons_self p l) hc
        rw [hr] at hq'
        exact Except.noConfusion hq'
      · by_cases hq : t < |q|
        · have hstep : zeroStep t true p = false := by
            simp [zeroStep, hc, hr, hq]
          rw [hstep, foldl_zeroStep_false]
          simp only [Bool.false_eq_true, false_iff]
          intro h
          obtain ⟨q', hq', hle⟩ := h p (List.mem_cons_self p l) hc
          rw [hr] at hq'
          cases hq'
          exact absurd hle (not_le.mpr hq)
        · have hstep : zeroStep t true p = true := by
            simp [zeroStep, hc, hr, hq]
          rw [hstep, ih]
          constructor
          · intro h p' hp' hc'
            rcases List.mem_cons.mp hp' with h' | h'
            · subst h'
              exact ⟨q, hr, not_lt.mp hq⟩
            · exact h p' h' hc'
          · intro h p' hp' hc'
            exact h p' (List.mem_cons_of_mem p hp') hc'
    · have hstep : zeroStep t true p = true := by
        simp [zeroStep, hc]
      rw [hstep, ih]
      constructor
      · intro h p' hp' hc'
        rcases List.mem_cons.mp hp' with h' | h'
        · subst h'; exact absurd hc' hc
        · exact h p' h' hc'
      · intro h p' hp' hc'
        exact h p' (List.mem_cons_of_mem p hp') hc'

/-- C10: `check_all_flows_zero` returns `True` iff every connected
controllable device's native-flow read succeeds with `|flow| ≤ threshold`;
a read failure on any connected device flips the result to `False` (the
`except` branch) instead of raising or skipping the device. -/
theorem check_all_flows_zero_iff (c : MFCController) (t : ℚ) :
    SafetyManager.check_all_flows_zero c t = true ↔
      ∀ p ∈ c.mfcs, p.2.is_connected = true →
        ∃ q, p.2.read_flow_mfc = .ok q ∧ |q| ≤ t := by
  rw [check_all_flows_zero_eq_foldl]
  exact foldl_zeroStep_true t c.mfcs

/-- C10 witness: on a registry with one healthy connected device reading `0`,
the verification returns `True`; on one whose read raises, it returns
`False`. -/
theorem check_all_flows_zero_iff_witness :
    SafetyManager.check_all_flows_zero cHealthy 1 = true ∧
    SafetyManager.check_all_flows_zero cDev 1 = false := by
  constructor
  · exact (check_all_flows_zero_iff cHealthy 1).mpr (by
      intro p hp _
      rcases List.mem_singleton.mp hp with h
      subst h
      exact ⟨0, rfl, by norm_num⟩)
  · have h := (check_all_flows_zero_iff cDev 1)
    rcases hb : SafetyManager.check_all_flows_zero cDev 1 with _ | _
    · rfl
    · exfalso
      obtain ⟨q, hq, _⟩ := (h.mp hb) ("A", mConn "A" iDead)
        (List.mem_cons_self _ _) rfl
      exact Except.noConfusion hq

/-! ## C7: `Calibration.__init__` validation and sort invariant -/

/-- C7: construction fails exactly when the two input sequences differ in
length or contain fewer than two points; on success the stored pairs are a
permutation of the zipped input sorted ascending by device value (`leFst`),
with the gas identifier kept. -/
theorem calibration_init_spec (mv rv : List ℚ) (g : String) :
    (Calibration.init mv rv g = none ↔ mv.length ≠ rv.length ∨ mv.length < 2) ∧
    ∀ c, Calibration.init mv rv g = some c →
      c.pairs.Perm (mv.zip rv) ∧ c.pairs.Sorted leFst ∧ c.gas_type = g := by
  constructor
  · unfold Calibration.init
    split_ifs with h1 h2
    · simp [h1]
    · simp [h1, h2]
    · simp [h1, h2]
  · intro c hc
    unfold Calibration.init at hc
    split_ifs at hc
    cases hc
    exact ⟨List.perm_insertionSort leFst _, List.sorted_insertionSort leFst _, rfl⟩

/-- C7 witness: a length mismatch is rejected, and a valid two-point input is
stored as the sorted pairs. -/
theorem calibration_init_spec_witness :
    Calibration.init [1] [2, 3] "g" = none ∧
    (Calibration.init [1, 0] [5, 0] "g" = some ⟨[(0, 0), (1, 5)], "g"⟩ ∧
      ([(0, 0), (1, 5)] : List (ℚ × ℚ)).Perm ([(1:ℚ), 0].zip [5, 0])) := by
  refine ⟨(calibration_init_spec [1] [2, 3] "g").1.mpr (by norm_num), ?_, ?_⟩
  · decide
  · have h := ((calibration_init_spec [1, 0] [5, 0] "g").2
      ⟨[(0, 0), (1, 5)], "g"⟩ (by decide)).1
    exact h

/-! ## C4: `remove_mfc` ordering and failure handling -/

/-- C4 counterexample: on a registry holding one connected device whose
setpoint write raises, `remove_mfc` propagates the exception — the failure
is re-raised, not logged-and-continued, and the device is neither
disconnected nor deleted (the registry step is never reached). -/
theorem remove_mfc_propagates_close_failure :
    cRm.remove_mfc "A" = .error .transportFail := rfl

lemma lookupDev_filter_ne {α : Type} (l : List (String × α)) (name : String) :
    lookupDev (l.filter fun p => !(p.1 == name)) name = none := by
  induction l with
  | nil => rfl
  | cons p l ih =>
    by_cases h : p.1 == name
    · simpa [List.filter_cons, h] using ih
    · have hb : (!(p.1 == name)) = true := by simp [h]
      simp only [List.filter_cons, hb, if_true]
      unfold lookupDev at ih ⊢
      rw [List.find?_cons_of_neg _ (by simp [h])]
      exact ih

/-- C4 (amended): for a registered, connected device, `remove_mfc` attempts
the zero-flow command first; if that command fails the exception propagates
to the caller and the registry entry survives untouched (the `.error` result
carries no updated registry), and only if it succeeds is the device
disconnected and its entry deleted. -/
theorem remove_mfc_behavior (c : MFCController) (name : String) (m : MFC)
    (hm : lookupDev c.mfcs name = some m) (hconn : m.is_connected = true) :
    (∀ e, m.close_valve = .error e → c.remove_mfc name = .error e) ∧
    ∀ m', m.close_valve = .ok m' →
      ∃ c', c.remove_mfc name = .ok c' ∧ lookupDev c'.mfcs name = none := by
  constructor
  · intro e he
    simp [MFCController.remove_mfc, hm, hconn, he]
  · intro m' hm'
    refine ⟨{ c with mfcs := c.mfcs.filter fun p => !(p.1 == name) }, ?_, ?_⟩
    · simp [MFCController.remove_mfc, hm, hconn, hm']
    · exact lookupDev_filter_ne c.mfcs name

/-- C4 witness: the amended behaviour evaluated on a one-device registry
whose write succeeds — the entry is gone afterwards. -/
theorem remove_mfc_behavior_witness :
    ∃ c', cHealthy.remove_mfc "A" = .ok c' ∧ lookupDev c'.mfcs "A" = none :=
  (remove_mfc_behavior cHealthy "A" (mConn "A" iOk) rfl rfl).2
    (closedM (mConn "A" iOk) iOk) rfl

/-! ## Shared lemmas about the bulk-operation loops -/

lemma is_connected_true {m : MFC} {i : Instrument} (hins : m.instrument = some i)
    (hcf : m._connected = true) : m.is_connected = true := by
  simp [MFC.is_connected, hins, hcf]

/-- On a connected device whose instrument accepts writes, `close_valve`
succeeds and produces exactly `closedM m i`. -/
lemma close_valve_ok (m : MFC) (i : Instrument) (hins : m.instrument = some i)
    (hcf : m._connected = true) (hw : i.writeFails = false) :
    m.close_valve = .ok (closedM m i) := by
  obtain ⟨nm, cp, na, g, ins, conn, cal, sp⟩ := m
  obtain ⟨rp, wf, wl⟩ := i
  simp only [MFC.instrument] at hins
  simp only [MFC._connected] at hcf
  simp only [Instrument.writeFails] at hw
  subst hins
  subst hcf
  subst hw
  rfl

/-- Every connected device with a healthy instrument is commanded to zero by
the `close_all_valves` loop, independently of all other devices, and its
successful close shows up in the trace. -/
lemma closePass_mem :
    ∀ (l : List (String × MFC)) (n : String) (m : MFC) (i : Instrument),
      (n, m) ∈ l → m.instrument = some i → m._connected = true →
      i.writeFails = false →
      (n, closedM m i) ∈ (closePass l).1 ∧ Ev.closed n ∈ (closePass l).2 := by
  intro l
  induction l with
  | nil => intro n m i hmem; cases hmem
  | cons p l ih =>
    intro n m i hmem hins hcf hw
    obtain ⟨p1, p2⟩ := p
    rcases List.mem_cons.mp hmem with h | h
    · cases h
      have h1 : m.is_connected = true := is_connected_true hins hcf
      have h2 := close_valve_ok m i hins hcf hw
      constructor
      · show (n, closedM m i) ∈ (closePass ((n, m) :: l)).1
        simp [closePass, h1, h2]
      · show Ev.closed n ∈ (closePass ((n, m) :: l)).2
        simp [closePass, h1, h2]
    · obtain ⟨ihm, ihe⟩ := ih n m i h hins hcf hw
      constructor
      · show _ ∈ (closePass ((p1, p2) :: l)).1
        simp only [closePass]
        split
        · split <;> exact List.mem_cons_of_mem _ ihm
        · exact List.mem_cons_of_mem _ ihm
      · show _ ∈ (closePass ((p1, p2) :: l)).2
        simp only [closePass]
        split
        · split <;> exact List.mem_cons_of_mem _ ihe
        · exact ihe

/-- The close pass emits only `closed` events and `error` logs. -/
lemma closePass_ev_shape :
    ∀ (l : List (String × MFC)) (e : Ev), e ∈ (closePass l).2 →
      (∃ nm, e = Ev.closed nm) ∨ ∃ msg, e = Ev.log .error msg := by
  intro l
  induction l with
  | nil => intro e he; exact absurd he (List.not_mem_nil e)
  | cons p l ih =>
    intro e he
    obtain ⟨p1, p2⟩ := p
    simp only [closePass] at he
    split at he
    · split at he
      · rcases List.mem_cons.mp he with h | h
        · exact Or.inl ⟨p1, h⟩
        · exact ih e h
      · rcases List.mem_cons.mp he with h | h
        · exact Or.inr ⟨_, h⟩
        · exact ih e h
    · exact ih e he

/-- The step-1 purge pass emits only `closed` events and `info` / `error`
logs. -/
lemma purgeClosePass_ev_shape :
    ∀ (a : String) (l : List (String × MFC)) (e : Ev), e ∈ (purgeClosePass a l).2 →
      (∃ nm, e = Ev.closed nm) ∨ (∃ msg, e = Ev.log .info msg) ∨
        ∃ msg, e = Ev.log .error msg := by
  intro a l
  induction l with
  | nil => intro e he; exact absurd he (List.not_mem_nil e)
  | cons p l ih =>
    intro e he
    obtain ⟨p1, p2⟩ := p
    simp only [purgeClosePass] at he
    split at he
    · split at he
      · rcases List.mem_cons.mp he with h | h
        · exact Or.inl ⟨p1, h⟩
        · rcases List.mem_cons.mp h with h' | h'
          · exact Or.inr (Or.inl ⟨_, h'⟩)
          · exact ih e h'
      · rcases List.mem_cons.mp he with h | h
        · exact Or.inr (Or.inr ⟨_, h⟩)
        · exact ih e h
    · exact ih e he

/-- The MFC release pass emits only `released` events. -/
lemma releasePassM_ev_shape :
    ∀ (l : List (String × MFC)) (e : Ev), e ∈ (releasePassM l).2 →
      ∃ nm, e = Ev.released nm := by
  intro l
  induction l with
  | nil => intro e he; exact absurd he (List.not_mem_nil e)
  | cons p l ih =>
    intro e he
    obtain ⟨p1, p2⟩ := p
    simp only [releasePassM] at he
    split at he
    · rcases List.mem_cons.mp he with h | h
      · exact ⟨p1, h⟩
      · exact ih e h
    · exact ih e he

/-- The CoriFlow release pass emits only `released` events. -/
lemma releasePassC_ev_shape :
    ∀ (l : List (String × CoriFlowMeter)) (e : Ev), e ∈ (releasePassC l).2 →
      ∃ nm, e = Ev.released nm := by
  intro l
  induction l with
  | nil => intro e he; exact absurd he (List.not_mem_nil e)
  | cons p l ih =>
    intro e he
    obtain ⟨p1, p2⟩ := p
    simp only [releasePassC] at he
    split at he
    · rcases List.mem_cons.mp he with h | h
      · exact ⟨p1, h⟩
      · exact ih e h
    · exact ih e he

/-- The close pass does not touch the registry's keys. -/
lemma closePass_keys :
    ∀ l : List (String × MFC), (closePass l).1.map Prod.fst = l.map Prod.fst := by
  intro l
  induction l with
  | nil => rfl
  | cons p l ih =>
    obtain ⟨p1, p2⟩ := p
    simp only [closePass]
    split
    · split <;> simp [ih]
    · simp [ih]

/-- The step-1 purge pass does not touch the registry's keys. -/
lemma purgeClosePass_keys :
    ∀ (a : String) (l : List (String × MFC)),
      (purgeClosePass a l).1.map Prod.fst = l.map Prod.fst := by
  intro a l
  induction l with
  | nil => rfl
  | cons p l ih =>
    obtain ⟨p1, p2⟩ := p
    simp only [purgeClosePass]
    split
    · split <;> simp [ih]
    · simp [ih]

lemma lookupDev_none_iff {α : Type} (l : List (String × α)) (nm : String) :
    lookupDev l nm = none ↔ ∀ k ∈ l.map Prod.fst, k ≠ nm := by
  unfold lookupDev
  rw [Option.map_eq_none']
  rw [List.find?_eq_none]
  constructor
  · intro h k hk
    obtain ⟨p, hp, hk'⟩ := List.mem_map.mp hk
    subst hk'
    intro hcontra
    exact h p hp (by simp [hcontra])
  · intro h p hp hcontra
    exact h p.1 (List.mem_map_of_mem Prod.fst hp) (by simpa using hcontra)

/-- A registered name always looks up to something. -/
lemma lookup_none_not_mem {α : Type} (l : List (String × α)) (nm : String)
    (h : lookupDev l nm = none) (a : α) : (nm, a) ∉ l := by
  intro hm
  exact (lookupDev_none_iff l nm).mp h nm (List.mem_map_of_mem Prod.fst hm) rfl

/-- Every connected healthy device other than the purge medium is zeroed by
step 1 of `purge`, independently of the other devices. -/
lemma purgeClosePass_mem :
    ∀ (a : String) (l : List (String × MFC)) (n : String) (m : MFC) (i : Instrument),
      (n, m) ∈ l → n ≠ a → m.instrument = some i → m._connected = true →
      i.writeFails = false → (n, closedM m i) ∈ (purgeClosePass a l).1 := by
  intro a l
  induction l with
  | nil => intro n m i hmem; cases hmem
  | cons p l ih =>
    intro n m i hmem hna hins hcf hw
    obtain ⟨p1, p2⟩ := p
    rcases List.mem_cons.mp hmem with h | h
    · cases h
      have h1 : m.is_connected = true := is_connected_true hins hcf
      have h2 := close_valve_ok m i hins hcf hw
      show (n, closedM m i) ∈ (purgeClosePass a ((n, m) :: l)).1
      simp [purgeClosePass, hna, h1, h2]
    · have ihm := ih n m i h hna hins hcf hw
      show _ ∈ (purgeClosePass a ((p1, p2) :: l)).1
      simp only [purgeClosePass]
      split
      · split <;> exact List.mem_cons_of_mem _ ihm
      · exact List.mem_cons_of_mem _ ihm

/-- C2 counterexample: `wink_all` has no per-device exception handling, so
on a registry whose first device's wink write raises, the bulk operation
raises on behalf of that individual device (and the second device is never
reached), contradicting the uniform continue-past-failures policy. -/
theorem wink_all_aborts_on_failure :
    cWink.wink_all = .error .transportFail := rfl

/-- Every connected device gets an entry in the `read_all_flows` result,
even when its read fails (`float("nan")`, modelled `none`). -/
lemma readFlowsPass_mem :
    ∀ (l : List (String × MFC)) (n : String) (m : MFC),
      (n, m) ∈ l → m.is_connected = true →
      ∃ o, (n, o) ∈ (readFlowsPass l).1 := by
  intro l
  induction l with
  | nil => intro n m hmem; cases hmem
  | cons p l ih =>
    intro n m hmem hc
    obtain ⟨p1, p2⟩ := p
    rcases List.mem_cons.mp hmem with h | h
    · cases h
      show ∃ o, (n, o) ∈ (readFlowsPass ((n, m) :: l)).1
      simp only [readFlowsPass, hc, if_true]
      rcases m.read_flow_real with v | v
      · exact ⟨none, List.mem_cons_self _ _⟩
      · exact ⟨some v, List.mem_cons_self _ _⟩
    · obtain ⟨o, ho⟩ := ih n m h hc
      refine ⟨o, ?_⟩
      show _ ∈ (readFlowsPass ((p1, p2) :: l)).1
      simp only [readFlowsPass]
      split
      · split <;> exact List.mem_cons_of_mem _ ho
      · exact ho

/-- C2 (amended): the partial-failure policy is *not* uniform.
`close_all_valves` and `read_all_flows` wrap the per-device call in
`try/except`, log the failure and continue — every connected device with a
healthy transport is zeroed, and every connected device gets a result entry,
independently of the other devices.  `wink_all`, `check_all_deviations` and
`connect_all` have no per-device handler: the first individual failure
propagates to the caller and aborts the remaining iteration. -/
theorem bulk_ops_failure_policy :
    (∀ (c : MFCController) (n : String) (m : MFC) (i : Instrument),
        (n, m) ∈ c.mfcs → m.instrument = some i → m._connected = true →
        i.writeFails = false →
        (n, closedM m i) ∈ (c.close_all_valves).1.mfcs) ∧
    (∀ (c : MFCController) (n : String) (m : MFC),
        (n, m) ∈ c.mfcs → m.is_connected = true →
        ∃ o, (n, o) ∈ (c.read_all_flows).1) ∧
    cDev.check_all_deviations 1 = .error .transportFail ∧
    cConn.connect_all (fun _ _ => .error .transportFail) = .error .transportFail := by
  refine ⟨?_, ?_, rfl, rfl⟩
  · intro c n m i hmem hins hcf hw
    exact (closePass_mem c.mfcs n m i hmem hins hcf hw).1
  · intro c n m hmem hc
    exact readFlowsPass_mem c.mfcs n m hmem hc

/-- C2 witness: the continue-past-failures halves evaluated on a concrete
one-device registry. -/
theorem bulk_ops_failure_policy_witness :
    ("A", closedM (mConn "A" iOk) iOk) ∈ (cHealthy.close_all_valves).1.mfcs ∧
    ∃ o, ("A", o) ∈ (cHealthy.read_all_flows).1 :=
  ⟨bulk_ops_failure_policy.1 cHealthy "A" (mConn "A" iOk) iOk
      (List.mem_cons_self _ _) rfl rfl rfl,
    bulk_ops_failure_policy.2.1 cHealthy "A" (mConn "A" iOk)
      (List.mem_cons_self _ _) rfl⟩

/-! ## C8: `disconnect_all` closes every valve before releasing any handle -/

/-- C8: the trace of `disconnect_all` splits into a prefix containing no
handle release and a suffix containing no valve close: the `close_all_valves`
pass runs to completion (every connected controllable device with a healthy
transport has its zero-setpoint command in the prefix) before any device's
transport handle is released. -/
theorem disconnect_all_closes_before_release (c : MFCController) :
    ∃ t1 t2, (c.disconnect_all).2 = t1 ++ t2 ∧
      (∀ e ∈ t1, ∀ nm, e ≠ Ev.released nm) ∧
      (∀ e ∈ t2, ∀ nm, e ≠ Ev.closed nm) ∧
      ∀ p ∈ c.mfcs, ∀ i, p.2.instrument = some i → p.2._connected = true →
        i.writeFails = false → Ev.closed p.1 ∈ t1 := by
  refine ⟨(c.close_all_valves).2,
    (releasePassM (c.close_all_valves).1.mfcs).2
      ++ (releasePassC (c.close_all_valves).1.cori_flows).2, ?_, ?_, ?_, ?_⟩
  · exact List.append_assoc _ _ _
  · intro e he nm
    simp only [MFCController.close_all_valves] at he
    rcases List.mem_append.mp he with h | h
    · rcases closePass_ev_shape c.mfcs e h with ⟨x, hx⟩ | ⟨x, hx⟩ <;> subst hx <;>
        exact fun hcontra => Ev.noConfusion hcontra
    · rw [List.mem_singleton.mp h]
      exact fun hcontra => Ev.noConfusion hcontra
  · intro e he nm
    rcases List.mem_append.mp he with h | h
    · obtain ⟨x, hx⟩ := releasePassM_ev_shape _ e h
      subst hx
      exact fun hcontra => Ev.noConfusion hcontra
    · obtain ⟨x, hx⟩ := releasePassC_ev_shape _ e h
      subst hx
      exact fun hcontra => Ev.noConfusion hcontra
  · intro p hp i hins hcf hw
    have hm : (p.1, p.2) ∈ c.mfcs := by rw [Prod.mk.eta]; exact hp
    have := (closePass_mem c.mfcs p.1 p.2 i hm hins hcf hw).2
    simp only [MFCController.close_all_valves]
    exact List.mem_append.mpr (Or.inl this)

/-- C8 witness: the split evaluated on a concrete one-device registry. -/
theorem disconnect_all_closes_before_release_witness :
    ∃ t1 t2, (cHealthy.disconnect_all).2 = t1 ++ t2 ∧
      (∀ e ∈ t1, ∀ nm, e ≠ Ev.released nm) ∧
      (∀ e ∈ t2, ∀ nm, e ≠ Ev.closed nm) ∧
      ∀ p ∈ cHealthy.mfcs, ∀ i, p.2.instrument = some i → p.2._connected = true →
        i.writeFails = false → Ev.closed p.1 ∈ t1 :=
  disconnect_all_closes_before_release cHealthy

/-! ## C3: `purge` with the purge medium missing from the registry -/

/-- C3 counterexample: with the default purge medium "Air" absent from a
concrete registry, `purge` produces *no* critical-severity log entry (the
code calls `logger.error` and `close_all_valves()` directly, never
`emergency_stop()` with its `logger.critical` lines), refuting "logs a
critical error"; the dwell is skipped (`0` seconds slept). -/
theorem purge_missing_medium_no_critical :
    containsCritical ((s0.purge cNoAir none).2.1) = false ∧
    (s0.purge cNoAir none).2.2 = 0 := ⟨rfl, rfl⟩

/-- C3 (amended): when the purge-medium name is absent from the controllable
registry, `purge` logs an *error-severity* message (not a critical one),
falls back to the close-all pass — every other connected controllable device
with a healthy transport ends with setpoint `0` — and returns early with a
zero dwell.  The embedding of `purge` is a total function: every internal
exception is caught, so nothing is raised to the caller. -/
theorem purge_missing_medium (s : SafetyManager) (c : MFCController)
    (o : Option String)
    (habs : lookupDev c.mfcs (resolveAirName o s) = none) :
    (s.purge c o).2.2 = 0 ∧
    Ev.log .error ("Air MFC " ++ resolveAirName o s ++ " not found - cannot purge")
      ∈ (s.purge c o).2.1 ∧
    (∀ e ∈ (s.purge c o).2.1, ∀ msg, e ≠ Ev.log .critical msg) ∧
    ∀ p ∈ c.mfcs, ∀ i, p.2.instrument = some i → p.2._connected = true →
      i.writeFails = false →
      ∃ m', (p.1, m') ∈ (s.purge c o).1.mfcs ∧ m'._last_setpoint_mfc = 0 := by
  have hair1 : lookupDev (purgeClosePass (resolveAirName o s) c.mfcs).1
      (resolveAirName o s) = none := by
    rw [lookupDev_none_iff] at habs ⊢
    rw [purgeClosePass_keys]
    exact habs
  have hres : s.purge c o =
      ((({ c with mfcs := (purgeClosePass (resolveAirName o s) c.mfcs).1 }
          : MFCController).close_all_valves).1,
        (Ev.log .warning "Starting purge sequence"
            :: (purgeClosePass (resolveAirName o s) c.mfcs).2)
          ++ [Ev.log .error
              ("Air MFC " ++ resolveAirName o s ++ " not found - cannot purge")]
          ++ (({ c with mfcs := (purgeClosePass (resolveAirName o s) c.mfcs).1 }
            : MFCController).close_all_valves).2,
        0) := by
    simp only [SafetyManager.purge, purgeAir, hair1]
  rw [hres]
  refine ⟨rfl, ?_, ?_, ?_⟩
  · exact List.mem_append.mpr (Or.inl (List.mem_append.mpr (Or.inr
      (List.mem_singleton.mpr rfl))))
  · intro e he msg
    rcases List.mem_append.mp he with h | h
    · rcases List.mem_append.mp h with h' | h'
      · rcases List.mem_cons.mp h' with h'' | h''
        · rw [h'']
          exact fun hcontra => by simp at hcontra
        · rcases purgeClosePass_ev_shape _ c.mfcs e h'' with ⟨x, hx⟩ | ⟨x, hx⟩ | ⟨x, hx⟩ <;>
            subst hx
          · exact fun hcontra => Ev.noConfusion hcontra
          · exact fun hcontra => by simp at hcontra
          · exact fun hcontra => by simp at hcontra
      · rw [List.mem_singleton.mp h']
        exact fun hcontra => by simp at hcontra
    · simp only [MFCController.close_all_valves] at h
      rcases List.mem_append.mp h with h' | h'
      · rcases closePass_ev_shape _ e h' with ⟨x, hx⟩ | ⟨x, hx⟩ <;> subst hx
        · exact fun hcontra => Ev.noConfusion hcontra
        · exact fun hcontra => by simp at hcontra
      · rw [List.mem_singleton.mp h']
        exact fun hcontra => by simp at hcontra
  · intro p hp i hins hcf hw
    have hm : (p.1, p.2) ∈ c.mfcs := by rw [Prod.mk.eta]; exact hp
    have hne : p.1 ≠ resolveAirName o s := by
      intro h
      exact lookup_none_not_mem c.mfcs (resolveAirName o s) habs p.2 (h ▸ hm)
    have h1 := purgeClosePass_mem (resolveAirName o s) c.mfcs p.1 p.2 i hm hne hins hcf hw
    have h2 := closePass_mem (purgeClosePass (resolveAirName o s) c.mfcs).1 p.1
      (closedM p.2 i) { i with writeLog := (SETPOINT, PVal.num 0) :: i.writeLog }
      h1 rfl hcf hw
    exact ⟨_, h2.1, rfl⟩

/-- C3 witness: the amended behaviour evaluated on the concrete registry
without an "Air" device. -/
theorem purge_missing_medium_witness :
    (s0.purge cNoAir none).2.2 = 0 ∧
    Ev.log .error ("Air MFC " ++ resolveAirName none s0 ++ " not found - cannot purge")
      ∈ (s0.purge cNoAir none).2.1 := by
  have h := purge_missing_medium s0 cNoAir none rfl
  exact ⟨h.1, h.2.1⟩

/-! ## C6: the round-trip law inside the calibrated range -/

/-- First device value of the stored pairs (`0` on the empty list). -/
def headFst : List (ℚ × ℚ) → ℚ
  | [] => 0
  | (a, _) :: _ => a

/-- Last device value of the stored pairs (`0` on the empty list). -/
def lastFst : List (ℚ × ℚ) → ℚ
  | [] => 0
  | [(a, _)] => a
  | _ :: p :: r => lastFst (p :: r)

/-- Last element of a rational list (`0` on the empty list). -/
def lastQ : List ℚ → ℚ
  | [] => 0
  | [a] => a
  | _ :: b :: r => lastQ (b :: r)

lemma interp_cons₂ (x a b a2 b2 : ℚ) (r : List (ℚ × ℚ)) :
    interp x ((a, b) :: (a2, b2) :: r) =
      if x ≤ a then b
      else if x ≤ a2 then b + (b2 - b) * (x - a) / (a2 - a)
      else interp x ((a2, b2) :: r) := rfl

lemma lastQ_map_fst : ∀ l : List (ℚ × ℚ), lastQ (l.map Prod.fst) = lastFst l := by
  intro l
  induction l with
  | nil => rfl
  | cons p l ih =>
    obtain ⟨a, b⟩ := p
    cases l with
    | nil => rfl
    | cons q r =>
      obtain ⟨a2, b2⟩ := q
      exact ih

lemma foldl_min_fixed : ∀ (qs : List ℚ) (q : ℚ), (∀ a ∈ qs, q ≤ a) →
    qs.foldl min q = q := by
  intro qs
  induction qs with
  | nil => intro q _; rfl
  | cons y ys ih =>
    intro q h
    rw [List.foldl_cons, min_eq_left (h y (List.mem_cons_self y ys))]
    exact ih q fun a ha => h a (List.mem_cons_of_mem y ha)

lemma listMin_sorted (q : ℚ) (qs : List ℚ)
    (h : List.Chain' (· ≤ ·) (q :: qs)) : listMin (q :: qs) = q := by
  have hpw := List.chain'_iff_pairwise.mp h
  exact foldl_min_fixed qs q (List.pairwise_cons.mp hpw).1

lemma listMax_sorted : ∀ (qs : List ℚ) (q : ℚ),
    List.Chain' (· ≤ ·) (q :: qs) → listMax (q :: qs) = lastQ (q :: qs) := by
  intro qs
  induction qs with
  | nil => intro q _; rfl
  | cons y ys ih =>
    intro q h
    have h1 : q ≤ y := (List.chain'_cons.mp h).1
    have h2 := (List.chain'_cons.mp h).2
    show (y :: ys).foldl max q = lastQ (q :: y :: ys)
    rw [List.foldl_cons, max_eq_right h1]
    exact ih y h2

lemma min_fst_eq (l : List (ℚ × ℚ)) (h : List.Chain' (· ≤ ·) (l.map Prod.fst)) :
    listMin (l.map Prod.fst) = headFst l := by
  cases l with
  | nil => rfl
  | cons p t =>
    obtain ⟨a, b⟩ := p
    exact listMin_sorted a (t.map Prod.fst) h

lemma max_fst_eq (l : List (ℚ × ℚ)) (h : List.Chain' (· ≤ ·) (l.map Prod.fst)) :
    listMax (l.map Prod.fst) = lastFst l := by
  cases l with
  | nil => rfl
  | cons p t =>
    obtain ⟨a, b⟩ := p
    rw [List.map_cons] at h ⊢
    rw [listMax_sorted (t.map Prod.fst) a h]
    exact lastQ_map_fst ((a, b) :: t)

/-- On strictly increasing knots, a query strictly beyond the first knot and
within the stored range interpolates strictly above the first value. -/
lemma interp_gt_head :
    ∀ (rest : List (ℚ × ℚ)) (a b x : ℚ),
      List.Chain' (· < ·) (a :: rest.map Prod.fst) →
      List.Chain' (· < ·) (b :: rest.map Prod.snd) →
      a < x → x ≤ lastFst ((a, b) :: rest) →
      b < interp x ((a, b) :: rest) := by
  intro rest
  induction rest with
  | nil =>
    intro a b x _ _ hax hxl
    exact absurd (lt_of_lt_of_le hax hxl) (lt_irrefl a)
  | cons q r ih =>
    intro a b x hf hs hax hxl
    obtain ⟨a2, b2⟩ := q
    simp only [List.map_cons] at hf hs
    have h12 : a < a2 := (List.chain'_cons.mp hf).1
    have hf' := (List.chain'_cons.mp hf).2
    have hb12 : b < b2 := (List.chain'_cons.mp hs).1
    have hs' := (List.chain'_cons.mp hs).2
    rw [interp_cons₂, if_neg (not_le.mpr hax)]
    by_cases hxa2 : x ≤ a2
    · rw [if_pos hxa2]
      have hpos : 0 < (b2 - b) * (x - a) / (a2 - a) :=
        div_pos (mul_pos (by linarith) (by linarith)) (by linarith)
      linarith
    · rw [if_neg hxa2]
      push_neg at hxa2
      have := ih a2 b2 x hf' hs' hxa2 hxl
      linarith

/-- The round-trip law for `np.interp`: on pairs strictly increasing in both
coordinates, interpolating forward and then backward over the swapped pairs
is the identity anywhere inside the device-value range (exactly, over ℚ). -/
lemma interp_roundtrip :
    ∀ (l : List (ℚ × ℚ)) (x : ℚ),
      List.Chain' (· < ·) (l.map Prod.fst) →
      List.Chain' (· < ·) (l.map Prod.snd) →
      headFst l ≤ x → x ≤ lastFst l →
      interp (interp x l) (l.map Prod.swap) = x := by
  intro l
  induction l with
  | nil =>
    intro x _ _ h1 h2
    have hx : x = 0 := le_antisymm h2 h1
    rw [hx]
    rfl
  | cons p l ih =>
    obtain ⟨a, b⟩ := p
    intro x hf hs h1 h2
    cases l with
    | nil =>
      have hxa : x = a := le_antisymm h2 h1
      rw [hxa]
      rfl
    | cons q r =>
      obtain ⟨a2, b2⟩ := q
      simp only [List.map_cons] at hf hs
      have h12 : a < a2 := (List.chain'_cons.mp hf).1
      have hf' := (List.chain'_cons.mp hf).2
      have hb12 : b < b2 := (List.chain'_cons.mp hs).1
      have hs' := (List.chain'_cons.mp hs).2
      simp only [List.map_cons, Prod.swap_prod_mk]
      rw [interp_cons₂ x a b a2 b2 r]
      by_cases hxa : x ≤ a
      · have hxeq : x = a := le_antisymm hxa h1
        rw [if_pos hxa, interp_cons₂, if_pos (le_refl b)]
        exact hxeq.symm
      · push_neg at hxa
        rw [if_neg (not_le.mpr hxa)]
        by_cases hxa2 : x ≤ a2
        · rw [if_pos hxa2]
          have hby : b < b + (b2 - b) * (x - a) / (a2 - a) := by
            have hpos : 0 < (b2 - b) * (x - a) / (a2 - a) :=
              div_pos (mul_pos (by linarith) (by linarith)) (by linarith)
            linarith
          have hyb2 : b + (b2 - b) * (x - a) / (a2 - a) ≤ b2 := by
            have hfrac : (x - a) / (a2 - a) ≤ 1 := by
              rw [div_le_one (by linarith : (0:ℚ) < a2 - a)]
              linarith
            have hmul : (b2 - b) * ((x - a) / (a2 - a)) ≤ (b2 - b) * 1 :=
              mul_le_mul_of_nonneg_left hfrac (by linarith)
            calc b + (b2 - b) * (x - a) / (a2 - a)
                = b + (b2 - b) * ((x - a) / (a2 - a)) := by ring
              _ ≤ b + (b2 - b) * 1 := by linarith
              _ = b2 := by ring
          rw [interp_cons₂, if_neg (not_le.mpr hby), if_pos hyb2]
          have ha : a2 - a ≠ 0 := ne_of_gt (by linarith)
          have hb' : b2 - b ≠ 0 := ne_of_gt (by linarith)
          field_simp
          ring
        · push_neg at hxa2
          rw [if_neg (not_le.mpr hxa2)]
          have hygt : b2 < interp x ((a2, b2) :: r) :=
            interp_gt_head r a2 b2 x hf' hs' hxa2 h2
          rw [interp_cons₂, if_neg (not_le.mpr (lt_trans hb12 hygt)),
            if_neg (not_le.mpr hygt)]
          have hhead : headFst ((a2, b2) :: r) ≤ x := le_of_lt hxa2
          have hres := ih x hf' hs' hhead h2
          simpa using hres

/-! ### The decreasing-real-values case

When the real values are strictly *decreasing* (still a strictly monotonic
calibration), `real_to_mfc` re-sorts the pairs into their reversal.  The
round trip reduces to the increasing case through the involution
`(a, b) ↦ (a, -b)` on the pairs and `(a, b) ↦ (-a, b)` on the swapped
pairs. -/

/-- Negate the real coordinate of a pair. -/
def negSnd (p : ℚ × ℚ) : ℚ × ℚ := (p.1, -p.2)

/-- Negate the device coordinate of a pair. -/
def negFst (p : ℚ × ℚ) : ℚ × ℚ := (-p.1, p.2)

/-- Last real value of the stored pairs (`0` on the empty list). -/
def lastSnd : List (ℚ × ℚ) → ℚ
  | [] => 0
  | [(_, b)] => b
  | _ :: p :: r => lastSnd (p :: r)

lemma interp_single (x a b : ℚ) : interp x [(a, b)] = b := rfl

/-- `interp` is odd in the value coordinate. -/
lemma interp_negSnd : ∀ (l : List (ℚ × ℚ)) (x : ℚ),
    interp x (l.map negSnd) = - interp x l := by
  intro l
  induction l with
  | nil => intro x; show (0:ℚ) = -0; norm_num
  | cons p t ih =>
    intro x
    obtain ⟨a, b⟩ := p
    cases t with
    | nil => rfl
    | cons q t' =>
      obtain ⟨a2, b2⟩ := q
      show interp x ((a, -b) :: (a2, -b2) :: t'.map negSnd)
        = - interp x ((a, b) :: (a2, b2) :: t')
      rw [interp_cons₂, interp_cons₂]
      by_cases h1 : x ≤ a
      · rw [if_pos h1, if_pos h1]
      · rw [if_neg h1, if_neg h1]
        by_cases h2 : x ≤ a2
        · rw [if_pos h2, if_pos h2]; ring
        · rw [if_neg h2, if_neg h2]; exact ih x

lemma map_negSnd_fst (l : List (ℚ × ℚ)) :
    (l.map negSnd).map Prod.fst = l.map Prod.fst := by
  rw [List.map_map]
  exact List.map_congr_left fun p _ => rfl

lemma map_swap_fst (l : List (ℚ × ℚ)) :
    (l.map Prod.swap).map Prod.fst = l.map Prod.snd := by
  rw [List.map_map]
  exact List.map_congr_left fun p _ => rfl

lemma chain_snd_negSnd (l : List (ℚ × ℚ))
    (h : List.Chain' (· > ·) (l.map Prod.snd)) :
    List.Chain' (· < ·) ((l.map negSnd).map Prod.snd) := by
  rw [List.map_map, List.chain'_map]
  have h' := (List.chain'_map Prod.snd).mp h
  exact h'.imp fun p q h'' => by
    show (negSnd p).2 < (negSnd q).2
    simp only [negSnd]
    exact neg_lt_neg h''

lemma headFst_negSnd (l : List (ℚ × ℚ)) : headFst (l.map negSnd) = headFst l := by
  cases l with
  | nil => rfl
  | cons p t => obtain ⟨a, b⟩ := p; rfl

lemma lastFst_negSnd : ∀ l : List (ℚ × ℚ), lastFst (l.map negSnd) = lastFst l := by
  intro l
  induction l with
  | nil => rfl
  | cons p t ih =>
    obtain ⟨a, b⟩ := p
    cases t with
    | nil => rfl
    | cons q t' => exact ih

lemma map_swap_negSnd_negFst : ∀ l : List (ℚ × ℚ),
    ((l.map negSnd).map Prod.swap).map negFst = l.map Prod.swap := by
  intro l
  induction l with
  | nil => rfl
  | cons p t ih =>
    obtain ⟨a, b⟩ := p
    simp only [List.map_cons]
    rw [ih]
    simp [negFst, negSnd, Prod.swap]

lemma lastFst_append_single : ∀ (M : List (ℚ × ℚ)) (aq bq : ℚ),
    lastFst (M ++ [(aq, bq)]) = aq := by
  intro M aq bq
  induction M with
  | nil => rfl
  | cons p M ih =>
    cases M with
    | nil => rfl
    | cons r M' => exact ih

lemma lastSnd_append_single : ∀ (M : List (ℚ × ℚ)) (aq bq : ℚ),
    lastSnd (M ++ [(aq, bq)]) = bq := by
  intro M aq bq
  induction M with
  | nil => rfl
  | cons p M ih =>
    cases M with
    | nil => rfl
    | cons r M' => exact ih

lemma head_le_lastFst : ∀ l : List (ℚ × ℚ), l ≠ [] →
    List.Chain' (· ≤ ·) (l.map Prod.fst) → headFst l ≤ lastFst l := by
  intro l
  induction l with
  | nil => intro h; exact absurd rfl h
  | cons p t ih =>
    intro _ hch
    obtain ⟨a, b⟩ := p
    cases t with
    | nil => exact le_refl a
    | cons q t' =>
      obtain ⟨a2, b2⟩ := q
      simp only [List.map_cons] at hch
      have h1 : a ≤ a2 := (List.chain'_cons.mp hch).1
      have h2 := (List.chain'_cons.mp hch).2
      have h3 := ih (by simp) (by simpa using h2)
      exact le_trans h1 h3

/-- Interpolating over a list extended on the right by one knot beyond all
stored device values: inside the old range nothing changes, between the old
last knot and the new one the new edge segment applies, beyond it the new
value clamps. -/
lemma interp_append_last :
    ∀ (M : List (ℚ × ℚ)) (aq bq y : ℚ), M ≠ [] →
      List.Chain' (· < ·) ((M ++ [(aq, bq)]).map Prod.fst) →
      interp y (M ++ [(aq, bq)]) =
        if y ≤ lastFst M then interp y M
        else if y ≤ aq then
          lastSnd M + (bq - lastSnd M) * (y - lastFst M) / (aq - lastFst M)
        else bq := by
  intro M
  induction M with
  | nil => intro aq bq y h; exact absurd rfl h
  | cons p M ih =>
    intro aq bq y _ hch
    obtain ⟨a, b⟩ := p
    cases M with
    | nil =>
      show interp y [(a, b), (aq, bq)] = _
      rw [interp_cons₂]
      simp only [lastFst, lastSnd]
      split_ifs <;> rfl
    | cons q M' =>
      obtain ⟨a2, b2⟩ := q
      have hch' : List.Chain' (· < ·)
          (a :: a2 :: ((M' ++ [(aq, bq)]).map Prod.fst)) := hch
      have h12 : a < a2 := (List.chain'_cons.mp hch').1
      have htail := (List.chain'_cons.mp hch').2
      have hle : List.Chain' (· ≤ ·) (((a2, b2) :: M').map Prod.fst) := by
        have hfull : List.Chain' (· ≤ ·) (a2 :: ((M' ++ [(aq, bq)]).map Prod.fst)) :=
          htail.imp fun _ _ h => le_of_lt h
        have : List.Chain' (· ≤ ·) ((((a2, b2) :: M') ++ [(aq, bq)]).map Prod.fst) := hfull
        rw [List.map_append] at this
        exact (List.chain'_append.mp this).1
      have ha2last : a2 ≤ lastFst ((a2, b2) :: M') :=
        head_le_lastFst _ (by simp) hle
      show interp y ((a, b) :: (a2, b2) :: (M' ++ [(aq, bq)])) = _
      rw [interp_cons₂]
      have ihr := ih aq bq y (by simp) htail
      rw [← List.cons_append, ihr]
      simp only [lastFst, lastSnd]
      by_cases hya : y ≤ a
      · rw [if_pos hya,
          if_pos (le_trans hya (le_trans (le_of_lt h12) ha2last)),
          interp_cons₂, if_pos hya]
      · rw [if_neg hya]
        by_cases hya2 : y ≤ a2
        · rw [if_pos hya2, if_pos (le_trans hya2 ha2last), interp_cons₂,
            if_neg hya, if_pos hya2]
        · rw [if_neg hya2]
          by_cases hyl : y ≤ lastFst ((a2, b2) :: M')
          · rw [if_pos hyl, if_pos hyl, interp_cons₂, if_neg hya, if_neg hya2]
          · rw [if_neg hyl, if_neg hyl]

lemma chain_fst_neg_reverse (L : List (ℚ × ℚ))
    (h : List.Chain' (· < ·) (L.map Prod.fst)) :
    List.Chain' (· < ·) (((L.map negFst).reverse).map Prod.fst) := by
  rw [List.map_reverse, List.chain'_reverse, List.map_map, List.chain'_map]
  have h' := (List.chain'_map Prod.fst).mp h
  exact h'.imp fun p q h'' => by
    show (Prod.fst ∘ negFst) q < (Prod.fst ∘ negFst) p
    simp only [Function.comp, negFst]
    exact neg_lt_neg h''

/-- Reflecting the device axis (`negFst`) and reversing the knots turns an
`interp` query at `y` into a query at `-y`. -/
lemma interp_neg_reverse :
    ∀ (L : List (ℚ × ℚ)) (y : ℚ),
      List.Chain' (· < ·) (L.map Prod.fst) →
      interp y ((L.map negFst).reverse) = interp (-y) L := by
  intro L
  induction L with
  | nil => intro y _; rfl
  | cons p T ih =>
    intro y hch
    obtain ⟨a1, b1⟩ := p
    cases T with
    | nil => rfl
    | cons q T' =>
      obtain ⟨a2, b2⟩ := q
      have hch' : List.Chain' (· < ·) (a1 :: a2 :: (T'.map Prod.fst)) := hch
      have h12 : a1 < a2 := (List.chain'_cons.mp hch').1
      have htail := (List.chain'_cons.mp hch').2
      have hL : ((((a1, b1) :: (a2, b2) :: T').map negFst).reverse)
          = ((((a2, b2) :: T').map negFst).reverse) ++ [(-a1, b1)] := by
        simp [negFst]
      rw [hL]
      have hne : ((((a2, b2) :: T').map negFst).reverse) ≠ [] := by simp
      have hchR : List.Chain' (· < ·)
          ((((((a2, b2) :: T').map negFst).reverse) ++ [(-a1, b1)]).map Prod.fst) := by
        rw [← hL]
        exact chain_fst_neg_reverse _ hch
      rw [interp_append_last _ _ _ y hne hchR]
      have hlastF : lastFst ((((a2, b2) :: T').map negFst).reverse) = -a2 := by
        rw [show (((a2, b2) :: T').map negFst).reverse
            = ((T'.map negFst).reverse) ++ [(-a2, b2)] from by simp [negFst]]
        exact lastFst_append_single _ _ _
      have hlastS : lastSnd ((((a2, b2) :: T').map negFst).reverse) = b2 := by
        rw [show (((a2, b2) :: T').map negFst).reverse
            = ((T'.map negFst).reverse) ++ [(-a2, b2)] from by simp [negFst]]
        exact lastSnd_append_single _ _ _
      rw [hlastF, hlastS, interp_cons₂ (-y) a1 b1 a2 b2 T']
      by_cases h1 : y ≤ -a2
      · rw [if_pos h1, ih y htail]
        have hny1 : ¬ (-y ≤ a1) := not_le.mpr (by linarith)
        rw [if_neg hny1]
        by_cases h2 : -y ≤ a2
        · have hya2 : -y = a2 := le_antisymm h2 (by linarith)
          rw [if_pos h2, hya2]
          have hval : interp a2 ((a2, b2) :: T') = b2 := by
            cases T' with
            | nil => rfl
            | cons r T'' =>
              obtain ⟨a3, b3⟩ := r
              rw [interp_cons₂, if_pos (le_refl a2)]
          rw [hval]
          have hd : a2 - a1 ≠ 0 := ne_of_gt (by linarith)
          have hmul : (b2 - b1) * (a2 - a1) / (a2 - a1) = b2 - b1 := by
            rw [mul_div_assoc, div_self hd, mul_one]
          rw [hmul]
          ring
        · rw [if_neg h2]
      · rw [if_neg h1]
        push_neg at h1
        by_cases h2 : y ≤ -a1
        · rw [if_pos h2]
          by_cases h3 : -y ≤ a1
          · have hival : y = -a1 := le_antisymm h2 (by linarith)
            rw [if_pos h3, hival]
            have hd : -a1 - -a2 ≠ 0 := ne_of_gt (by linarith)
            have hmul : (b1 - b2) * (-a1 - -a2) / (-a1 - -a2) = b1 - b2 := by
              rw [mul_div_assoc, div_self hd, mul_one]
            rw [hmul]
            ring
          · rw [if_neg h3]
            push_neg at h3
            have h4 : -y ≤ a2 := by linarith
            rw [if_pos h4]
            have hd : a2 - a1 ≠ 0 := ne_of_gt (by linarith)
            have hNE : -a1 - -a2 = a2 - a1 := by ring
            rw [hNE]
            have key : ((b1 - b2) * (y - -a2) - (b2 - b1) * (-y - a1)) / (a2 - a1)
                = b1 - b2 := by
              rw [div_eq_iff hd]
              ring
            rw [sub_div] at key
            linarith
        · rw [if_neg h2]
          push_neg at h2
          rw [if_pos (by linarith : -y ≤ a1)]

/-- The round-trip law in the decreasing-real-values case: forward over the
pairs, backward over the reversed swapped pairs. -/
lemma roundtrip_dec (l : List (ℚ × ℚ)) (x : ℚ)
    (hf : List.Chain' (· < ·) (l.map Prod.fst))
    (hs : List.Chain' (· > ·) (l.map Prod.snd))
    (h1 : headFst l ≤ x) (h2 : x ≤ lastFst l) :
    interp (interp x l) ((l.reverse).map Prod.swap) = x := by
  have hf' : List.Chain' (· < ·) ((l.map negSnd).map Prod.fst) := by
    rw [map_negSnd_fst]; exact hf
  have hs' := chain_snd_negSnd l hs
  have h1' : headFst (l.map negSnd) ≤ x := by rw [headFst_negSnd]; exact h1
  have h2' : x ≤ lastFst (l.map negSnd) := by rw [lastFst_negSnd]; exact h2
  have hrt := interp_roundtrip (l.map negSnd) x hf' hs' h1' h2'
  have hLfst : List.Chain' (· < ·) (((l.map negSnd).map Prod.swap).map Prod.fst) := by
    rw [map_swap_fst]; exact hs'
  have hB := interp_neg_reverse ((l.map negSnd).map Prod.swap) (interp x l) hLfst
  rw [map_swap_negSnd_negFst] at hB
  rw [List.map_reverse, hB, ← interp_negSnd l x]
  exact hrt

/-- `orderedInsert` appends at the end when the key exceeds every stored
key. -/
lemma orderedInsert_append (p : ℚ × ℚ) :
    ∀ M : List (ℚ × ℚ), (∀ q ∈ M, ¬ leSnd p q) →
      M.orderedInsert leSnd p = M ++ [p] := by
  intro M
  induction M with
  | nil => intro _; rfl
  | cons b M ih =>
    intro h
    rw [List.orderedInsert, if_neg (h b (List.mem_cons_self b M))]
    rw [ih fun q hq => h q (List.mem_cons_of_mem b hq)]
    rfl

lemma chain_gt_head : ∀ (M : List ℚ) (a : ℚ), List.Chain' (· > ·) (a :: M) →
    ∀ s ∈ M, s < a := by
  intro M
  induction M with
  | nil => intro a _ s hs; exact absurd hs (List.not_mem_nil s)
  | cons b M ih =>
    intro a h s hs
    have hab : b < a := (List.chain'_cons.mp h).1
    have h' := (List.chain'_cons.mp h).2
    rcases List.mem_cons.mp hs with h'' | h''
    · rw [h'']; exact hab
    · exact lt_trans (ih b h' s h'') hab

/-- On strictly decreasing real values, the stable re-sort by real value is
exactly the reversal of the stored pairs. -/
lemma insertionSort_leSnd_of_strictAnti :
    ∀ l : List (ℚ × ℚ), List.Chain' (· > ·) (l.map Prod.snd) →
      l.insertionSort leSnd = l.reverse := by
  intro l
  induction l with
  | nil => intro _; rfl
  | cons p t ih =>
    intro h
    rw [List.insertionSort]
    have htail : List.Chain' (· > ·) (t.map Prod.snd) := by
      have := List.Chain'.tail (l := (p :: t).map Prod.snd) h
      simpa using this
    rw [ih htail]
    rw [orderedInsert_append p t.reverse ?_]
    · exact (List.reverse_cons p t).symm
    · intro q hq
      have hq' : q ∈ t := List.mem_reverse.mp hq
      have hlt : q.2 < p.2 := by
        have hh : List.Chain' (· > ·) (p.2 :: t.map Prod.snd) := h
        exact chain_gt_head (t.map Prod.snd) p.2 hh q.2
          (List.mem_map_of_mem Prod.snd hq')
      exact not_le.mpr hlt

/-- C6: for a validly constructed Calibration whose stored device values and
real values are both strictly monotonic (the device values, stored sorted,
are strictly increasing; the real values strictly increasing or strictly
decreasing), `real_to_mfc (mfc_to_real x) = x` exactly (ℚ arithmetic
carries no rounding, so "within interpolation tolerance" is met with zero
error) for every `x` inside the calibrated device-value range. -/
theorem calibration_roundtrip (mv rv : List ℚ) (g : String) (c : Calibration)
    (_hc : Calibration.init mv rv g = some c)
    (hf : List.Chain' (· < ·) (c.pairs.map Prod.fst))
    (hs : List.Chain' (· < ·) (c.pairs.map Prod.snd) ∨
      List.Chain' (· > ·) (c.pairs.map Prod.snd))
    (x : ℚ) (hx1 : c.min_mfc_value ≤ x) (hx2 : x ≤ c.max_mfc_value) :
    c.real_to_mfc (c.mfc_to_real x) = x := by
  have hle : List.Chain' (· ≤ ·) (c.pairs.map Prod.fst) :=
    hf.imp fun _ _ h => le_of_lt h
  have hmin : c.min_mfc_value = headFst c.pairs := min_fst_eq c.pairs hle
  have hmax : c.max_mfc_value = lastFst c.pairs := max_fst_eq c.pairs hle
  rcases hs with hinc | hdec
  · have hpw : c.pairs.Pairwise leSnd := by
      have h := List.chain'_iff_pairwise.mp hinc
      rw [List.pairwise_map] at h
      exact h.imp le_of_lt
    have hsort : c.pairs.insertionSort leSnd = c.pairs :=
      List.Sorted.insertionSort_eq hpw
    unfold Calibration.real_to_mfc Calibration.mfc_to_real
    rw [hsort]
    exact interp_roundtrip c.pairs x hf hinc (hmin ▸ hx1) (hmax ▸ hx2)
  · have hsort := insertionSort_leSnd_of_strictAnti c.pairs hdec
    unfold Calibration.real_to_mfc Calibration.mfc_to_real
    rw [hsort]
    exact roundtrip_dec c.pairs x hf hdec (hmin ▸ hx1) (hmax ▸ hx2)

/-- C6 witness: the round trip evaluated at `x = 1` on the increasing
calibration with pairs `[(0, 0), (1, 5)]` and at `x = 1/2` on the decreasing
one with pairs `[(0, 5), (1, 0)]`. -/
theorem calibration_roundtrip_witness :
    (⟨[(0, 0), (1, 5)], "g"⟩ : Calibration).real_to_mfc
      ((⟨[(0, 0), (1, 5)], "g"⟩ : Calibration).mfc_to_real 1) = 1 ∧
    (⟨[(0, 5), (1, 0)], "g"⟩ : Calibration).real_to_mfc
      ((⟨[(0, 5), (1, 0)], "g"⟩ : Calibration).mfc_to_real (1/2)) = 1/2 :=
  ⟨calibration_roundtrip [0, 1] [0, 5] "g" ⟨[(0, 0), (1, 5)], "g"⟩ (by decide)
    (by norm_num [List.chain'_cons, List.chain'_singleton])
    (Or.inl (by norm_num [List.chain'_cons, List.chain'_singleton]))
    1 (by decide) (by decide),
  calibration_roundtrip [0, 1] [5, 0] "g" ⟨[(0, 5), (1, 0)], "g"⟩ (by decide)
    (by norm_num [List.chain'_cons, List.chain'_singleton])
    (Or.inr (by norm_num [List.chain'_cons, List.chain'_singleton]))
    (1/2) (by norm_num [Calibration.min_mfc_value, listMin])
    (by norm_num [Calibration.max_mfc_value, listMax])⟩

end MfcControl
